import Mathlib

/-!
Verification of the binary-plan mirror-and-aggregate engine of the
`aimas-pro` repository (`api/index.js`).

The JavaScript source keeps one MongoDB document per account (collection
`binari_system`); monetary and point quantities are `BigNumber` decimal
strings.  We embed the store as a list of records (Mongo `findOne` /
`updateOne` act on the first document matching the `wallet` filter, and
`save` appends), and `BigNumber` decimal arithmetic as exact rational
arithmetic (`ℚ`), with `BigNumber.dp(0)` — round to 0 decimal places under
the default `ROUND_HALF_UP` mode (nearest, ties away from zero) — made
explicit as `dp0`.  JavaScript `toNumber()` comparisons of decimal strings
are embedded as exact comparisons on `ℚ`.
-/

namespace AimasPro

/-- Wallet identifiers are strings (lower-cased hex addresses). -/
abbrev Wallet := String

/-- `String.prototype.toLowerCase()` / `toLocaleLowerCase()` as used on
wallet addresses, embedded character-wise. -/
def minusculas (w : Wallet) : Wallet := String.mk (w.data.map Char.toLower)

/-- `WalletVacia` from `api/index.js`: the empty/zero address. -/
def WalletVacia : Wallet := "0x0000000000000000000000000000000000000000"

/-- `factorPuntos = 100` from `api/index.js`. -/
def factorPuntos : ℚ := 100

/-- `BigNumber.dp(0)` with the default rounding mode `ROUND_HALF_UP`
(mode 4): round to the nearest integer, ties away from zero.
Mathlib's `round` is `⌊q + 1/2⌋` (ties towards `+∞`), which agrees with
`ROUND_HALF_UP` on non-negative arguments; for negative arguments
`BigNumber` rounds ties away from zero, hence the reflection. -/
def dp0 (q : ℚ) : ℤ := if 0 ≤ q then round q else -round (-q)

/-- A rational that is an integer (a `BigNumber` decimal string holding an
integer value). -/
def IsIntQ (q : ℚ) : Prop := q.den = 1

instance (q : ℚ) : Decidable (IsIntQ q) := by unfold IsIntQ; infer_instance

/-- One document of the `binari_system` collection (schema `Binario` in
`api/index.js`).  Decimal-string fields are embedded as `ℚ`, wallet
pointers as strings, `idBlock` as `ℕ`.  The schema fields `lastUpdate`,
`reclamados` and `idBlock_old` are never read by the engine functions
embedded here and are omitted; `hand` and `retirableA` are absent on
freshly created documents, which we embed as `0`. -/
structure Usuario where
  wallet : Wallet
  registered : Bool
  invested : ℚ
  invested_leader : ℚ
  upTo : ℚ
  referer : Wallet
  up : Wallet
  left : Wallet
  right : Wallet
  lPuntos : ℚ
  rPuntos : ℚ
  lReclamados : ℚ
  rReclamados : ℚ
  lExtra : ℚ
  rExtra : ℚ
  lPersonas : ℚ
  rPersonas : ℚ
  idBlock : ℕ
  puntosActivos : ℚ
  hand : ℕ
  retirableA : ℚ
deriving Repr, DecidableEq

/-- The `binari_system` collection: documents in insertion order. -/
abbrev Store := List Usuario

/-- `binario.findOne({ wallet: w })`: first document whose `wallet` is `w`. -/
def findOne : Store → Wallet → Option Usuario
  | [], _ => none
  | u :: rest, w => if u.wallet = w then some u else findOne rest w

/-- `binario.find({ left: w })`: all documents whose `left` is `w`,
in collection order. -/
def findByLeft : Store → Wallet → List Usuario
  | [], _ => []
  | u :: rest, w =>
      if u.left = w then u :: findByLeft rest w else findByLeft rest w

/-- `binario.find({ right: w })`: all documents whose `right` is `w`,
in collection order. -/
def findByRight : Store → Wallet → List Usuario
  | [], _ => []
  | u :: rest, w =>
      if u.right = w then u :: findByRight rest w else findByRight rest w

/-- `binario.updateOne({ wallet: w }, patch)`: apply the `$set` patch `f`
to the first document whose `wallet` is `w` (no-op when absent). -/
def updateOne : Store → Wallet → (Usuario → Usuario) → Store
  | [], _, _ => []
  | u :: rest, w, f =>
      if u.wallet = w then f u :: rest else u :: updateOne rest w f

/-! ## Compensation Calculator (`retirableBinario`, `lecturaBinari`,
`hacerTakeProfit`) -/

/-- `retirableBinario(puntosA, puntosB)` (`api/index.js` 449-458):
`amount = puntosA <= puntosB ? puntosA : puntosB`, then
`amount.times(10).dividedBy(100).dp(0)`. -/
def retirableBinario (puntosA puntosB : ℚ) : ℤ :=
  let amount := if puntosA ≤ puntosB then puntosA else puntosB
  dp0 (amount * 10 / 100)

/-- Left effective points as computed by `lecturaBinari` / `hacerTakeProfit`:
`new BigNumber(user.lPuntos).minus(user.lReclamados).plus(user.lExtra).dp(0)`. -/
def puntosEfectivosL (u : Usuario) : ℤ :=
  dp0 (u.lPuntos - u.lReclamados + u.lExtra)

/-- Right effective points, symmetric to `puntosEfectivosL`. -/
def puntosEfectivosR (u : Usuario) : ℤ :=
  dp0 (u.rPuntos - u.rReclamados + u.rExtra)

/-- The claimable matching-bonus amount reported by `lecturaBinari`
(`api/index.js` 639-691): `retBin = retirableBinario(puntosL, puntosR)`,
clamped to `"0"` when negative. -/
def lecturaRetirable (u : Usuario) : ℤ :=
  let retBin := retirableBinario (puntosEfectivosL u) (puntosEfectivosR u)
  if retBin < 0 then 0 else retBin

/-- Modelled from the spec (§4.3 `computeClaimable`), for comparison with
`lecturaRetirable`: `matched = min(leftEffective, rightEffective)`;
`amount = matched * matchingRate/100` (rate 10%) rounded to the ledger's
integer precision; if `amount ≤ 0`, no claim is possible (`0` reported). -/
def computeClaimableSpec (leftEffective rightEffective : ℚ) : ℤ :=
  let amount := dp0 (min leftEffective rightEffective * 10 / 100)
  if amount ≤ 0 then 0 else amount

/-- Outcome of the `corteBinarioDo` ledger settlement call in
`hacerTakeProfit`.  `ambiguous` stands for a rejection whose error text
contains `"Transaction Hash: "` (the transaction may already be in
flight); `failure` is any other rejection. -/
inductive SettleOutcome where
  | success (hash : String)
  | ambiguous
  | failure (msg : String)
deriving Repr, DecidableEq

/-- The `result` object returned by `hacerTakeProfit`. -/
structure TPResult where
  result : Bool
  error : Bool
  hash : Option String
  message : Option String
deriving Repr, DecidableEq

/-- `hacerTakeProfit(wallet)` (`api/index.js` 247-357), at the level of the
single account document it reads and writes.  Computes the dp(0) effective
points per leg, `puntosReclamados = min`, and
`retBin = retirableBinario(puntosL, puntosR)`; when `retBin ≤ 0` the
update object stays empty, otherwise both `lReclamados` and `rReclamados`
are set to their old value plus `puntosReclamados`.  The update is applied
on a confirmed settlement and on the ambiguous "Transaction Hash: "
rejection; any other rejection leaves the document untouched and reports
a structured error.  (The `rangoReclamado` loop's results are discarded by
the source — `truerango` is hard-coded `true` — and the trailing
`consultarUsuario(wallet, true)` is not awaited and does not modify the
document.) -/
def hacerTakeProfit (u : Usuario) (outcome : SettleOutcome) :
    Usuario × TPResult :=
  let puntosL := puntosEfectivosL u
  let puntosR := puntosEfectivosR u
  let puntosReclamados : ℤ := if puntosL ≤ puntosR then puntosL else puntosR
  let retBin := retirableBinario (puntosL : ℚ) (puntosR : ℚ)
  let newUser : Usuario → Usuario :=
    if retBin ≤ 0 then fun v => v
    else fun v =>
      { v with lReclamados := u.lReclamados + (puntosReclamados : ℚ),
               rReclamados := u.rReclamados + (puntosReclamados : ℚ) }
  match outcome with
  | .success h =>
      (newUser u,
       { result := true, error := false, hash := some h, message := none })
  | .ambiguous =>
      (newUser u,
       { result := true, error := false,
         hash := some "operation processing is in progress please be patient",
         message := none })
  | .failure m =>
      (u, { result := false, error := true, hash := none, message := some m })

/-! ## Ledger Client (the external contract, consumed read-only except for
settlement).  `api/index.js` reads `investors`, `upline`, `addressToId`,
`verListaDepositos`, `porcent` and `retirableA` from the contract; all are
embedded as total functions of an abstract ledger state. -/

/-- One entry of `verListaDepositos`. -/
structure Deposito where
  valor : ℚ
  factor : ℚ
  pasivo : Bool
deriving Repr, DecidableEq

/-- The fields of `contrato.methods.investors(w)` read by the engine. -/
structure Investor where
  registered : Bool
  invested : ℚ
deriving Repr, DecidableEq

/-- The external contract interface as read by the engine.  `upline w`
returns `(parseInt(_lado), _referer)`. -/
structure Ledger where
  investors : Wallet → Investor
  upline : Wallet → ℕ × Wallet
  addressToId : Wallet → ℕ
  deposits : Wallet → List Deposito
  porcent : ℚ
  retirableA : Wallet → ℚ

/-! ## Account creation and ledger refresh (`crearUsuario`,
`actualizarUsuario`, `consultarUsuario`) -/

/-- `crearUsuario(from)` (`api/index.js` 1130-1285).  The local variable
`investor` is initialised `{ registered: false }` and never reassigned, so
the branches reading it (`investor.registered`) are dead code and
`invertidoReal` starts at `0`.  When the ledger reports the account
registered, one pass over `verListaDepositos` accumulates `invertido`
(passive deposits), `leader` (non-passive deposits) and `upTo`
(`valor * factor / 100` over all deposits).  If the account's document is
absent a fresh document is built and saved (appended); otherwise only
`invested` and `invested_leader` are updated.  Returns the resulting store
and the `result` value (`newUser` on creation, the re-read document
otherwise). -/
def crearUsuario (L : Ledger) (from0 : Wallet) (s : Store) :
    Store × Option Usuario :=
  let frm := minusculas from0
  let investorNew := L.investors frm
  let acc : ℚ × ℚ × ℚ :=
    if investorNew.registered then
      (L.deposits frm).foldl
        (fun (acc : ℚ × ℚ × ℚ) d =>
          let dep := d.valor
          (if d.pasivo then acc.1 + dep else acc.1,
           if d.pasivo then acc.2.1 else acc.2.1 + dep,
           acc.2.2 + dep * d.factor / 100))
        (0, 0, 0)
    else (0, 0, 0)
  let invertido := acc.1
  let leader := acc.2.1
  let upTo := acc.2.2
  let invertidoReal : ℚ :=
    if investorNew.registered then
      if leader > 0 then (if invertido > 0 then invertido else 0)
      else investorNew.invested
    else 0
  match findOne s frm with
  | none =>
      let newUser : Usuario :=
        { wallet := frm
          registered := investorNew.registered
          invested := invertidoReal
          invested_leader := leader
          upTo := upTo
          referer := if investorNew.registered
                     then minusculas ((L.upline frm).2) else WalletVacia
          up := WalletVacia
          left := WalletVacia
          right := WalletVacia
          lPuntos := 0, rPuntos := 0
          lReclamados := 0, rReclamados := 0
          lExtra := 0, rExtra := 0
          lPersonas := 0, rPersonas := 0
          idBlock := if investorNew.registered then L.addressToId frm else 0
          puntosActivos := 0
          hand := 0
          retirableA := 0 }
      (s ++ [newUser], some newUser)
  | some _ =>
      let s' := updateOne s frm (fun v =>
        { v with invested := invertidoReal, invested_leader := leader })
      (s', findOne s' frm)

/-- The `$set` document built by `actualizarUsuario(from, {})`
(`api/index.js` 1329-1447), applied to the account's current document.
Because of the `depositos[index].pasivo || true` condition the `leader`
accumulator never grows, so `realInvested` is always
`investorNew.invested` when registered (the `invertido` accumulator is
computed and discarded) and `invested_leader` is set to `0`; `upTo` is
`(0 + investorNew.invested) * porcent / 100` in both branches.  `data` is
`{}` at every embedded call site, so the `lReclamados`/`lExtra`/… increment
branches are skipped, and the `!userTemp.lPuntos` defaults never fire on
the total records embedded here. -/
def actualizarRecord (L : Ledger) (frm : Wallet) (v : Usuario) : Usuario :=
  let investorNew := L.investors frm
  if investorNew.registered then
    let consulta := L.upline frm
    let hand := consulta.1
    { v with
      idBlock := L.addressToId frm
      registered := true
      hand := hand
      referer := if hand ≤ 1 ∧ v.referer = WalletVacia
                 then minusculas consulta.2 else v.referer
      retirableA := L.retirableA frm
      invested := investorNew.invested
      invested_leader := 0
      upTo := (0 + investorNew.invested) * L.porcent / 100 }
  else
    { v with
      registered := false
      invested := 0
      invested_leader := 0
      upTo := (0 + investorNew.invested) * L.porcent / 100 }

/-- `actualizarUsuario(from, {})` at the store level: no-op when the
document is absent, otherwise `updateOne` with `actualizarRecord`. -/
def actualizarUsuario (L : Ledger) (from0 : Wallet) (s : Store) : Store :=
  let frm := minusculas from0
  match findOne s frm with
  | none => s
  | some _ => updateOne s frm (actualizarRecord L frm)

/-- `consultarUsuario(from, agregateBinario, updateInfoBlockchain)` with
the `conectarUp` flag absent/false (`api/index.js` 1287-1327), as invoked
from `conectarUpline`, `binariV2` and `hacerTakeProfit`.  The zero address
returns `{}` (embedded as `none`) before any store access.  Otherwise:
optional ledger refresh (`actualizarUsuario`), then `findOne`,
`crearUsuario` when absent.  The `agregateBinario` flag only updates the
in-memory `binarioindexado` cache, which is not part of the store. -/
def consultarUsuarioNoUp (L : Ledger) (_agregate update : Bool)
    (from0 : Wallet) (s : Store) : Store × Option Usuario :=
  let frm := minusculas from0
  if frm = WalletVacia then (s, none)
  else
    let s1 := if update then actualizarUsuario L frm s else s
    match findOne s1 frm with
    | none => crearUsuario L frm s1
    | some u => (s1, some u)

/-! ## Upline Resolver (`conectarUpline`) -/

/-- The `while (accion === 0)` chain walk of the `hand === 0` branch of
`conectarUpline` (`api/index.js` 913-970), placing `frm` at the first free
left slot reachable from `buscando`.  `none` models the JavaScript
`TypeError` thrown when `userRef` is `null` (`consultarUsuario(
userRef.wallet)` dereferences `null`), which aborts `conectarUpline`, and
(artificially) fuel exhaustion; callers pass fuel `s.length + 1`, which
the visited list `lista` makes sufficient.  Store writes happen only at
the exit actions, so the walk reads a constant store. -/
def ubicarIzquierda : ℕ → Wallet → Wallet → List Wallet → Store →
    Option Store
  | 0, _, _, _, _ => none
  | fuel + 1, frm, buscando, lista, s =>
    match findOne s buscando with
    | none => none
    | some userRef =>
      if userRef.left = frm then
        -- accion 1: already in place, fix the `up` pointer
        some (updateOne s frm (fun v => { v with up := userRef.wallet }))
      else if userRef.left = WalletVacia ∧ userRef.wallet ≠ frm then
        -- accion 2: attach at the free slot
        some (updateOne
          (updateOne s userRef.wallet (fun v => { v with left := frm }))
          frm (fun v => { v with up := userRef.wallet }))
      else if userRef.wallet ∈ lista then
        -- accion 5: cycle detected, clear the pointer
        some (updateOne s userRef.wallet
          (fun v => { v with left := WalletVacia, lPuntos := 0 }))
      else
        ubicarIzquierda fuel frm userRef.left (lista ++ [userRef.wallet]) s

/-- The `hand === 1` chain walk (`api/index.js` 1028-1083).  Unlike the
left-hand walk, a missing `userRef` takes `accion = 4` (firing an
un-awaited `consultarUsuario(buscando)`) and exits without a throw; the
visited list tracks `buscando` rather than `userRef.wallet`. -/
def ubicarDerecha : ℕ → Wallet → Wallet → List Wallet → Store →
    Option Store
  | 0, _, _, _, _ => none
  | fuel + 1, frm, buscando, lista, s =>
    match findOne s buscando with
    | none => some s  -- accion 4
    | some userRef =>
      if userRef.right = frm then
        some (updateOne s frm (fun v => { v with up := userRef.wallet }))
      else if userRef.right = WalletVacia ∧ userRef.wallet ≠ frm then
        some (updateOne
          (updateOne s userRef.wallet (fun v => { v with right := frm }))
          frm (fun v => { v with up := userRef.wallet }))
      else if buscando ∈ lista then
        some (updateOne s buscando
          (fun v => { v with right := WalletVacia, rPuntos := 0 }))
      else
        ubicarDerecha fuel frm userRef.right (lista ++ [buscando]) s

/-- Winner selection of the conflicting-claims branch (`api/index.js`
889-899 and 1004-1014): start from `ubication[0].idBlock`, scan all
entries, and move to any entry with a non-zero `idBlock` strictly below
the current minimum; returns the winning index `ganador`. -/
def ganadorIdx (ubication : List Usuario) : ℕ :=
  match ubication with
  | [] => 0
  | u0 :: _ =>
    (ubication.enum.foldl
      (fun (acc : ℕ × ℕ) iu =>
        if iu.2.idBlock ≠ 0 ∧ iu.2.idBlock < acc.1
        then (iu.2.idBlock, iu.1) else acc)
      (u0.idBlock, 0)).2

/-- The `hand === 0` branch of `conectarUpline` (`api/index.js` 865-983):
documents claiming `frm` as left child are looked up; with exactly one
claimant the `up` pointer is fixed, with several the `ganadorIdx` winner
becomes `frm.up` and — as written in the source — the update clearing
`left`/`lPuntos` is applied to `ubication[ganador].wallet` once per other
index; with none, the left chain walk places `frm`.  Afterwards every
document claiming `frm` as a right child is cleared. -/
def manoIzquierda (frm referer : Wallet) (userTemp : Usuario) (s : Store) :
    Option Store :=
  let ubication := findByLeft s frm
  let s1opt :=
    match ubication with
    | [] => ubicarIzquierda (s.length + 1) frm referer [] s
    | [u0] =>
        some (if userTemp.up ≠ u0.wallet
              then updateOne s frm (fun v => { v with up := u0.wallet })
              else s)
    | u0 :: _ :: _ =>
        let g := ganadorIdx ubication
        let gw := (ubication.getD g u0).wallet
        let s1 := updateOne s frm (fun v => { v with up := gw })
        some ((List.range ubication.length).foldl
          (fun st i =>
            if i ≠ g then
              updateOne st gw
                (fun v => { v with left := WalletVacia, lPuntos := 0 })
            else st) s1)
  match s1opt with
  | none => none
  | some s1 =>
      let adverso := findByRight s1 frm
      some (adverso.foldl
        (fun st a => updateOne st a.wallet
          (fun v => { v with right := WalletVacia, rPuntos := 0 })) s1)

/-- The `hand === 1` branch of `conectarUpline` (`api/index.js` 985-1097),
symmetric to `manoIzquierda` with left/right swapped. -/
def manoDerecha (frm referer : Wallet) (userTemp : Usuario) (s : Store) :
    Option Store :=
  let ubication := findByRight s frm
  let s1opt :=
    match ubication with
    | [] => ubicarDerecha (s.length + 1) frm referer [] s
    | [u0] =>
        some (if userTemp.up ≠ u0.wallet
              then updateOne s frm (fun v => { v with up := u0.wallet })
              else s)
    | u0 :: _ :: _ =>
        let g := ganadorIdx ubication
        let gw := (ubication.getD g u0).wallet
        let s1 := updateOne s frm (fun v => { v with up := gw })
        some ((List.range ubication.length).foldl
          (fun st i =>
            if i ≠ g then
              updateOne st gw
                (fun v => { v with right := WalletVacia, rPuntos := 0 })
            else st) s1)
  match s1opt with
  | none => none
  | some s1 =>
      let adverso := findByLeft s1 frm
      some (adverso.foldl
        (fun st a => updateOne st a.wallet
          (fun v => { v with left := WalletVacia, lPuntos := 0 })) s1)

/-- `conectarUpline(from)` (`api/index.js` 814-1128).  Reads the account's
document and the ledger's `(hand, referer)` signal; when the referer's
document exists and the stored referer is set but `up` is empty, runs the
hand-matching placement branch; finally applies the `newUser` patch
(`referer`, plus `up := WalletVacia` when `up === wallet`) and re-reads via
`consultarUsuario(from, true)`.  `none` models the JavaScript exception
propagated out of the left chain walk.  The un-awaited
`consultarUsuario(referer, true, true)` of the missing-referer branch has
no synchronous store effect; the final "se deberia borrar" check only
logs. -/
def conectarUpline (L : Ledger) (from0 : Wallet) (s : Store) :
    Option (Store × Bool) :=
  let frm := minusculas from0
  match findOne s frm with
  | none => some (s, false)
  | some userTemp =>
    let consulta := L.upline frm
    let hand := consulta.1
    let referer := minusculas consulta.2
    match findOne s referer with
    | some _ =>
        if referer ≠ WalletVacia then
          let sOpt :=
            if userTemp.referer ≠ WalletVacia ∧ userTemp.up = WalletVacia then
              match (if hand = 0 then manoIzquierda frm referer userTemp s
                     else some s) with
              | none => none
              | some sl =>
                  if hand = 1 then manoDerecha frm referer userTemp sl
                  else some sl
            else some s
          match sOpt with
          | none => none
          | some s2 =>
              let s3 := updateOne s2 frm (fun v =>
                { v with referer := referer,
                         up := if userTemp.up = userTemp.wallet
                               then WalletVacia else v.up })
              let s4 := (consultarUsuarioNoUp L true false frm s3).1
              some (s4, false)
        else
          -- "sin referer valido": `newUser` stays `{}`, `updateOne` is a no-op
          let s4 := (consultarUsuarioNoUp L true false frm s).1
          some (s4, false)
    | none => some (s, true)

/-- `consultarUsuario(from, agregateBinario, updateInfoBlockchain,
conectarUp)` in full (`api/index.js` 1287-1327): the zero address returns
`{}` (`none`) untouched; otherwise optional ledger refresh, lazy creation,
and — when `conectarUp` is set — a `conectarUpline` pass followed by a
re-read.  `none` models an exception escaping `conectarUpline`. -/
def consultarUsuario (L : Ledger) (_agregate update conectarUp : Bool)
    (from0 : Wallet) (s : Store) : Option (Store × Option Usuario) :=
  let frm := minusculas from0
  if frm = WalletVacia then some (s, none)
  else
    let s1 := if update then actualizarUsuario L frm s else s
    let res :=
      match findOne s1 frm with
      | none => crearUsuario L frm s1
      | some u => (s1, some u)
    if conectarUp then
      match conectarUpline L frm res.1 with
      | none => none
      | some (s3, _) => some (s3, findOne s3 frm)
    else some res

/-! ## Point Aggregator (`binariV2`) -/

/-- The single `updateOne` of `binariV2` (`api/index.js` 552) applying the
staged `newUser` keys: each `some` entry overwrites the corresponding
field, each `none` entry (key absent from `newUser`) leaves it unchanged. -/
def binariV2Patch (oLP oLPer oRP oRPer : Option ℚ) (v : Usuario) : Usuario :=
  { v with lPuntos := oLP.getD v.lPuntos,
           lPersonas := oLPer.getD v.lPersonas,
           rPuntos := oRP.getD v.rPuntos,
           rPersonas := oRPer.getD v.rPersonas }

/-- The "puntos activos" block of `binariV2` (`api/index.js` 555-576):
re-read the document and store
`puntosActivos := min(lPuntos + lExtra − lReclamados,
rPuntos + rExtra − rReclamados)`. -/
def activarPuntos (s3 : Store) (wallet : Wallet) : Store :=
  match findOne s3 wallet with
  | some u2 =>
      let pL := u2.lPuntos + u2.lExtra - u2.lReclamados
      let pR := u2.rPuntos + u2.rExtra - u2.rReclamados
      updateOne s3 wallet (fun v =>
        { v with puntosActivos := if pL < pR then pL else pR })
  | none => s3

/-- `binariV2(wallet)` (`api/index.js` 460-580).  Per leg: when the child
slot is a real wallet, refresh the child (`consultarUsuario(child, false,
true)`), read it back, and stage `lPuntos := (0 + child.invested) *
factorPuntos / 100 + child.lPuntos + child.rPuntos` and `lPersonas := 0 +
1 + child.lPersonas + child.rPersonas` only when strictly above the
current values (the informal max-merge); when the slot is `WalletVacia`
stage `"0"` for both.  The staged `newUser` is applied with one
`updateOne`; then `puntosActivos := min(lPuntos + lExtra − lReclamados,
rPuntos + rExtra − rReclamados)` is recomputed from the updated document.
On a missing document, the un-awaited `consultarUsuario(wallet, true,
true, true)` has no synchronous effect and the store is returned
unchanged. -/
def binariV2 (L : Ledger) (wallet0 : Wallet) (s : Store) : Store :=
  let wallet := minusculas wallet0
  match findOne s wallet with
  | none => s
  | some userTemp =>
    let lleg : Store × Option ℚ × Option ℚ :=
      if userTemp.left ≠ WalletVacia then
        let s1 := (consultarUsuarioNoUp L false true userTemp.left s).1
        match findOne s1 userTemp.left with
        | some uleft =>
            let puntosIz := (0 + uleft.invested) * factorPuntos / 100
                              + uleft.lPuntos + uleft.rPuntos
            let personasIz := (0 : ℚ) + 1 + uleft.lPersonas + uleft.rPersonas
            (s1,
             if puntosIz > userTemp.lPuntos then some puntosIz else none,
             if personasIz > userTemp.lPersonas then some personasIz else none)
        | none => (s1, none, none)
      else (s, some 0, some 0)
    let rleg : Store × Option ℚ × Option ℚ :=
      if userTemp.right ≠ WalletVacia then
        let s2 := (consultarUsuarioNoUp L false true userTemp.right lleg.1).1
        match findOne s2 userTemp.right with
        | some uright =>
            let puntosDe := (0 + uright.invested) * factorPuntos / 100
                              + uright.lPuntos + uright.rPuntos
            let personasDe := (0 : ℚ) + 1 + uright.lPersonas + uright.rPersonas
            (s2,
             if puntosDe > userTemp.rPuntos then some puntosDe else none,
             if personasDe > userTemp.rPersonas then some personasDe else none)
        | none => (s2, none, none)
      else (lleg.1, some 0, some 0)
    let s3 := updateOne rleg.1 wallet
      (binariV2Patch lleg.2.1 lleg.2.2 rleg.2.1 rleg.2.2)
    activarPuntos s3 wallet

/-! ## Derived notions and concrete instances used by the theorems -/

/-- Per-leg spec invariant 4 (§3): `claimedPoints ≤ totalPoints + extraPoints`. -/
def invariantePuntos (u : Usuario) : Prop :=
  u.lReclamados ≤ u.lPuntos + u.lExtra ∧ u.rReclamados ≤ u.rPuntos + u.rExtra

instance (u : Usuario) : Decidable (invariantePuntos u) := by
  unfold invariantePuntos; infer_instance

/-- The point-bearing fields of a document all hold integer values (the
normal state of the system: deposits are integer token amounts and
`factorPuntos/100 = 1`). -/
def camposEnteros (u : Usuario) : Prop :=
  IsIntQ u.lPuntos ∧ IsIntQ u.rPuntos ∧ IsIntQ u.lReclamados ∧
  IsIntQ u.rReclamados ∧ IsIntQ u.lExtra ∧ IsIntQ u.rExtra

instance (u : Usuario) : Decidable (camposEnteros u) := by
  unfold camposEnteros; infer_instance

/-- The per-leg result of one `binariV2` pass for a resolved leg:
`none` is an empty (`WalletVacia`) child slot, which resets the total to
`0`; `some c` is a present child, merged monotonically. -/
def legPuntos (cur : ℚ) (child : Option Usuario) : ℚ :=
  match child with
  | none => 0
  | some c =>
      let p := (0 + c.invested) * factorPuntos / 100 + c.lPuntos + c.rPuntos
      if p > cur then p else cur

/-- Companion to `legPuntos` for the `lPersonas`/`rPersonas` fields. -/
def legPersonas (cur : ℚ) (child : Option Usuario) : ℚ :=
  match child with
  | none => 0
  | some c => if (0 : ℚ) + 1 + c.lPersonas + c.rPersonas > cur
              then (0 : ℚ) + 1 + c.lPersonas + c.rPersonas else cur

/-- The collapsed effect of one `binariV2` pass on the account's own
document, when both legs are resolved (children present and
ledger-mirrored, or empty slots): both legs' point fields are merged, then
`puntosActivos` is recomputed from the merged fields. -/
def binariV2Record (ul ur : Option Usuario) (v : Usuario) : Usuario :=
  let v' := { v with lPuntos := legPuntos v.lPuntos ul,
                     lPersonas := legPersonas v.lPersonas ul,
                     rPuntos := legPuntos v.rPuntos ur,
                     rPersonas := legPersonas v.rPersonas ur }
  let pL := v'.lPuntos + v'.lExtra - v'.lReclamados
  let pR := v'.rPuntos + v'.rExtra - v'.rReclamados
  { v' with puntosActivos := if pL < pR then pL else pR }

/-- A blank registered document used to build concrete stores. -/
def usuarioBase (w : Wallet) : Usuario :=
  { wallet := w, registered := true, invested := 0, invested_leader := 0,
    upTo := 0, referer := WalletVacia, up := WalletVacia,
    left := WalletVacia, right := WalletVacia,
    lPuntos := 0, rPuntos := 0, lReclamados := 0, rReclamados := 0,
    lExtra := 0, rExtra := 0, lPersonas := 0, rPersonas := 0,
    idBlock := 0, puntosActivos := 0, hand := 0, retirableA := 0 }

/-- A ledger with no registered investors and no upline signals. -/
def ledgerTrivial : Ledger :=
  { investors := fun _ => { registered := false, invested := 0 },
    upline := fun _ => (0, WalletVacia),
    addressToId := fun _ => 0,
    deposits := fun _ => [],
    porcent := 0,
    retirableA := fun _ => 0 }

/-- Ledger for the slot-conflict scenario: the contract reports account
`0xf` as registered on the right-hand side (`_lado = 1`) of referer `0xr`. -/
def ledgerConflicto : Ledger :=
  { ledgerTrivial with
    upline := fun w => if w = "0xf" then (1, "0xr") else (0, WalletVacia) }

/-- Store for the slot-conflict scenario: both `0xp1` (`idBlock` 5) and
`0xp2` (`idBlock` 9) have `0xf` recorded as their right child; `0xf` has
its referer set and no `up` pointer yet. -/
def storeConflicto : Store :=
  [ { usuarioBase "0xr" with idBlock := 1 },
    { usuarioBase "0xp1" with idBlock := 5, right := "0xf" },
    { usuarioBase "0xp2" with idBlock := 9, right := "0xf" },
    { usuarioBase "0xf" with idBlock := 12, referer := "0xr" } ]

/-- Account with `leftEffective = 800` and `rightEffective = 500` (the
spec's worked claim example). -/
def usuario800 : Usuario :=
  { usuarioBase "0xa" with lPuntos := 800, rPuntos := 500 }

/-- Account with an empty left slot but a non-zero left watermark
(`lPuntos = 7`) and already-claimed points (`lReclamados = 5`). -/
def usuarioHuerfano : Usuario :=
  { usuarioBase "0xa" with lPuntos := 7, lReclamados := 5 }

/-- Parent of the two-level aggregation scenario. -/
def usuarioPadre : Usuario :=
  { usuarioBase "0xa" with
      left := "0xb", right := "0xc", lPuntos := 3, registered := false }

/-- Left child of the two-level aggregation scenario. -/
def usuarioHijoIzq : Usuario :=
  { usuarioBase "0xb" with
      registered := false, lPuntos := 2, rPuntos := 4, lPersonas := 1 }

/-- Right child of the two-level aggregation scenario. -/
def usuarioHijoDer : Usuario :=
  { usuarioBase "0xc" with registered := false }

/-- A small two-level store whose children match `ledgerTrivial`'s view of
an unregistered account (`invested = 0`), so the child refresh is inert. -/
def storeDosNiveles : Store := [usuarioPadre, usuarioHijoIzq, usuarioHijoDer]

/-! ## Lemmas about `dp0` (BigNumber `dp(0)` rounding) -/

theorem dp0_intCast (n : ℤ) : dp0 (n : ℚ) = n := by
  unfold dp0
  split
  · exact round_intCast n
  · rw [show -(n : ℚ) = ((-n : ℤ) : ℚ) by push_cast; ring, round_intCast]
    ring

theorem dp0_nonpos {q : ℚ} (h : q ≤ 0) : dp0 q ≤ 0 := by
  unfold dp0
  split
  · have hq : q = 0 := le_antisymm h (by assumption)
    subst hq; simp
  · rename_i hq
    have h2 : (0 : ℚ) ≤ -q := by linarith
    have h3 : (0 : ℤ) ≤ round (-q) := by
      rw [round_eq]
      exact Int.le_floor.2 (by push_cast; linarith)
    omega

theorem dp0_nonpos_of_lt_half {q : ℚ} (h : q < 1 / 2) : dp0 q ≤ 0 := by
  unfold dp0
  split
  · rw [round_eq]
    have h1 : ⌊q + 1 / 2⌋ < 1 := Int.floor_lt.2 (by push_cast; linarith)
    omega
  · rename_i hq
    have h2 : (0 : ℚ) ≤ -q := by linarith
    have h3 : (0 : ℤ) ≤ round (-q) := by
      rw [round_eq]
      exact Int.le_floor.2 (by push_cast; linarith)
    omega

theorem lt_dp0_add_half {q : ℚ} (h : 0 ≤ q) : q < (dp0 q : ℚ) + 1 / 2 := by
  unfold dp0
  rw [if_pos h, round_eq]
  have h1 := Int.sub_one_lt_floor (q + 1 / 2)
  push_cast at h1 ⊢
  linarith

theorem pos_of_dp0_pos {q : ℚ} (h : 0 < dp0 q) : 0 < q := by
  by_contra hq
  push_neg at hq
  have := dp0_nonpos hq
  omega

/-- After a claim of `m = min(dp0 x, dp0 y)` points per leg with a positive
claimable amount, the dp(0) effective points of the bottleneck leg are no
longer positive. -/
theorem min_dp0_post_claim {x y : ℚ}
    (hpos : 0 < dp0 ((min (dp0 x) (dp0 y) : ℤ) * 10 / 100 : ℚ)) :
    min (dp0 (x - (min (dp0 x) (dp0 y) : ℤ))) (dp0 (y - (min (dp0 x) (dp0 y) : ℤ))) ≤ 0 := by
  set a := dp0 x with ha
  set b := dp0 y with hb
  have hm : 0 < min a b := by
    have h1 : (0 : ℚ) < (min a b : ℤ) * 10 / 100 := pos_of_dp0_pos hpos
    by_contra hc
    push_neg at hc
    have : ((min a b : ℤ) : ℚ) ≤ 0 := by exact_mod_cast hc
    nlinarith
  rcases le_total a b with hab | hab
  · rw [min_eq_left hab] at hm ⊢
    have hx : (0 : ℚ) ≤ x := by
      rcases lt_or_le x 0 with hx0 | hx0
      · exfalso; have := dp0_nonpos hx0.le; rw [← ha] at this; omega
      · exact hx0
    have h2 : x < (a : ℚ) + 1 / 2 := by
      have := lt_dp0_add_half hx; rwa [← ha] at this
    have h3 : dp0 (x - (a : ℤ)) ≤ 0 := by
      apply dp0_nonpos_of_lt_half
      linarith
    exact le_trans (min_le_left _ _) h3
  · rw [min_eq_right hab] at hm ⊢
    have hy : (0 : ℚ) ≤ y := by
      rcases lt_or_le y 0 with hy0 | hy0
      · exfalso; have := dp0_nonpos hy0.le; rw [← hb] at this; omega
      · exact hy0
    have h2 : y < (b : ℚ) + 1 / 2 := by
      have := lt_dp0_add_half hy; rwa [← hb] at this
    have h3 : dp0 (y - (b : ℤ)) ≤ 0 := by
      apply dp0_nonpos_of_lt_half
      linarith
    exact le_trans (min_le_right _ _) h3

theorem IsIntQ.exists_intCast {q : ℚ} (h : IsIntQ q) : ∃ n : ℤ, q = (n : ℚ) :=
  ⟨q.num, ((Rat.den_eq_one_iff q).1 h).symm⟩

/-! ## Lemmas about the Compensation Calculator -/

/-- With a positive claimable amount, the update object of
`hacerTakeProfit` sets both `lReclamados` and `rReclamados` to their old
value plus `min(puntosL, puntosR)`; a confirmed settlement applies it. -/
theorem hacerTakeProfit_success_fst (u : Usuario) (hh : String)
    (hpos : 0 < retirableBinario (puntosEfectivosL u : ℚ) (puntosEfectivosR u : ℚ)) :
    (hacerTakeProfit u (.success hh)).1 =
      { u with
        lReclamados := u.lReclamados
          + ((min (puntosEfectivosL u) (puntosEfectivosR u) : ℤ) : ℚ),
        rReclamados := u.rReclamados
          + ((min (puntosEfectivosL u) (puntosEfectivosR u) : ℤ) : ℚ) } := by
  have hneg : ¬ retirableBinario (puntosEfectivosL u : ℚ) (puntosEfectivosR u : ℚ) ≤ 0 := by
    omega
  simp only [hacerTakeProfit]
  rw [if_neg hneg]
  try rw [min_def]

/-- The ambiguous "Transaction Hash: " rejection applies the same update. -/
theorem hacerTakeProfit_ambiguous_fst (u : Usuario)
    (hpos : 0 < retirableBinario (puntosEfectivosL u : ℚ) (puntosEfectivosR u : ℚ)) :
    (hacerTakeProfit u .ambiguous).1 =
      { u with
        lReclamados := u.lReclamados
          + ((min (puntosEfectivosL u) (puntosEfectivosR u) : ℤ) : ℚ),
        rReclamados := u.rReclamados
          + ((min (puntosEfectivosL u) (puntosEfectivosR u) : ℤ) : ℚ) } := by
  have hneg : ¬ retirableBinario (puntosEfectivosL u : ℚ) (puntosEfectivosR u : ℚ) ≤ 0 := by
    omega
  simp only [hacerTakeProfit]
  rw [if_neg hneg]
  try rw [min_def]

/-- A `retirableBinario` value on the dp(0) effective points, rewritten to
the `min`-over-`ℤ` form. -/
theorem retirableBinario_eq_min (a b : ℤ) :
    retirableBinario (a : ℚ) (b : ℚ) = dp0 ((min a b : ℤ) * 10 / 100 : ℚ) := by
  have hsel : (if (a : ℚ) ≤ (b : ℚ) then (a : ℚ) else (b : ℚ)) = ((min a b : ℤ) : ℚ) := by
    rcases le_or_lt a b with h | h
    · rw [if_pos (by exact_mod_cast h), min_eq_left h]
    · rw [if_neg (by exact_mod_cast not_le.2 h), min_eq_right h.le]
  simp only [retirableBinario]
  rw [hsel]

/-- After applying the settlement update with a positive claimable amount,
an immediate re-computation of the claimable amount yields `0`. -/
theorem lecturaRetirable_after_claim (u : Usuario)
    (hpos : 0 < retirableBinario (puntosEfectivosL u : ℚ) (puntosEfectivosR u : ℚ)) :
    lecturaRetirable
      { u with
        lReclamados := u.lReclamados
          + ((min (puntosEfectivosL u) (puntosEfectivosR u) : ℤ) : ℚ),
        rReclamados := u.rReclamados
          + ((min (puntosEfectivosL u) (puntosEfectivosR u) : ℤ) : ℚ) } = 0 := by
  set x := u.lPuntos - u.lReclamados + u.lExtra with hx
  set y := u.rPuntos - u.rReclamados + u.rExtra with hy
  have hLx : puntosEfectivosL u = dp0 x := rfl
  have hRy : puntosEfectivosR u = dp0 y := rfl
  rw [hLx, hRy, retirableBinario_eq_min] at hpos
  have hkey := min_dp0_post_claim hpos
  simp only [lecturaRetirable]
  have eL : puntosEfectivosL
      { u with
        lReclamados := u.lReclamados + ((min (dp0 x) (dp0 y) : ℤ) : ℚ),
        rReclamados := u.rReclamados + ((min (dp0 x) (dp0 y) : ℤ) : ℚ) } =
      dp0 (x - ((min (dp0 x) (dp0 y) : ℤ) : ℚ)) := by
    unfold puntosEfectivosL
    congr 1
    simp only [hx]
    ring
  have eR : puntosEfectivosR
      { u with
        lReclamados := u.lReclamados + ((min (dp0 x) (dp0 y) : ℤ) : ℚ),
        rReclamados := u.rReclamados + ((min (dp0 x) (dp0 y) : ℤ) : ℚ) } =
      dp0 (y - ((min (dp0 x) (dp0 y) : ℤ) : ℚ)) := by
    unfold puntosEfectivosR
    congr 1
    simp only [hy]
    ring
  rw [hLx, hRy, eL, eR, retirableBinario_eq_min]
  have harg : ((min (dp0 (x - ((min (dp0 x) (dp0 y) : ℤ) : ℚ)))
        (dp0 (y - ((min (dp0 x) (dp0 y) : ℤ) : ℚ))) : ℤ) : ℚ) * 10 / 100 ≤ 0 := by
    have : ((min (dp0 (x - ((min (dp0 x) (dp0 y) : ℤ) : ℚ)))
        (dp0 (y - ((min (dp0 x) (dp0 y) : ℤ) : ℚ))) : ℤ) : ℚ) ≤ 0 := by
      exact_mod_cast hkey
    nlinarith
  have := dp0_nonpos harg
  omega

/-- On integer-valued fields the dp(0) effective points are exact. -/
theorem puntosEfectivosL_int (u : Usuario) (h1 : IsIntQ u.lPuntos)
    (h3 : IsIntQ u.lReclamados) (h5 : IsIntQ u.lExtra) :
    ((puntosEfectivosL u : ℤ) : ℚ) = u.lPuntos - u.lReclamados + u.lExtra := by
  obtain ⟨lp, hlp⟩ := h1.exists_intCast
  obtain ⟨lr, hlr⟩ := h3.exists_intCast
  obtain ⟨el, hel⟩ := h5.exists_intCast
  have hx : u.lPuntos - u.lReclamados + u.lExtra = ((lp - lr + el : ℤ) : ℚ) := by
    rw [hlp, hlr, hel]; push_cast; ring
  unfold puntosEfectivosL
  rw [hx, dp0_intCast]

/-- Right-leg companion of `puntosEfectivosL_int`. -/
theorem puntosEfectivosR_int (u : Usuario) (h2 : IsIntQ u.rPuntos)
    (h4 : IsIntQ u.rReclamados) (h6 : IsIntQ u.rExtra) :
    ((puntosEfectivosR u : ℤ) : ℚ) = u.rPuntos - u.rReclamados + u.rExtra := by
  obtain ⟨rp, hrp⟩ := h2.exists_intCast
  obtain ⟨rr, hrr⟩ := h4.exists_intCast
  obtain ⟨er, her⟩ := h6.exists_intCast
  have hy : u.rPuntos - u.rReclamados + u.rExtra = ((rp - rr + er : ℤ) : ℚ) := by
    rw [hrp, hrr, her]; push_cast; ring
  unfold puntosEfectivosR
  rw [hy, dp0_intCast]

/-! ## Claim C1 -/

/-- C1: for every account with integer-valued point fields, the claimable
amount reported by `lecturaBinari` is exactly the spec's
`computeClaimable`: `min(leftEffective, rightEffective) * 10/100` rounded
to integer precision, with `0` reported whenever that amount is `≤ 0`,
where each leg's effective points are
`totalPoints − claimedPoints + extraPoints`. -/
theorem lecturaRetirable_cumple_spec (u : Usuario) (h : camposEnteros u) :
    lecturaRetirable u =
      computeClaimableSpec (u.lPuntos - u.lReclamados + u.lExtra)
        (u.rPuntos - u.rReclamados + u.rExtra) := by
  obtain ⟨h1, h2, h3, h4, h5, h6⟩ := h
  have hxL := puntosEfectivosL_int u h1 h3 h5
  have hxR := puntosEfectivosR_int u h2 h4 h6
  simp only [lecturaRetirable, computeClaimableSpec]
  rw [← hxL, ← hxR, retirableBinario_eq_min, ← Int.cast_min]
  split_ifs <;> omega

unseal Rat.add Rat.mul Rat.sub Rat.inv in
theorem lecturaRetirable_cumple_spec_witness :
    camposEnteros usuario800 ∧
    (lecturaRetirable usuario800 =
      computeClaimableSpec
        (usuario800.lPuntos - usuario800.lReclamados + usuario800.lExtra)
        (usuario800.rPuntos - usuario800.rReclamados + usuario800.rExtra)) ∧
    lecturaRetirable usuario800 = 50 :=
  ⟨by decide, lecturaRetirable_cumple_spec usuario800 (by decide), by decide⟩

/-! ## Claim C2 -/

/-- C2: with a positive claimable amount, a confirmed settlement increments
both legs' `lReclamados`/`rReclamados` by exactly
`matched = min(leftEffective, rightEffective)` (the symmetric debit), and
an immediately repeated claimable-amount computation returns `0`. -/
theorem hacerTakeProfit_liquida (u : Usuario) (hh : String)
    (hpos : 0 < retirableBinario (puntosEfectivosL u : ℚ) (puntosEfectivosR u : ℚ)) :
    (hacerTakeProfit u (.success hh)).1.lReclamados
        = u.lReclamados + ((min (puntosEfectivosL u) (puntosEfectivosR u) : ℤ) : ℚ) ∧
    (hacerTakeProfit u (.success hh)).1.rReclamados
        = u.rReclamados + ((min (puntosEfectivosL u) (puntosEfectivosR u) : ℤ) : ℚ) ∧
    lecturaRetirable (hacerTakeProfit u (.success hh)).1 = 0 := by
  rw [hacerTakeProfit_success_fst u hh hpos]
  exact ⟨rfl, rfl, lecturaRetirable_after_claim u hpos⟩

unseal Rat.add Rat.mul Rat.sub Rat.inv in
theorem hacerTakeProfit_liquida_witness :
    (0 < retirableBinario (puntosEfectivosL usuario800 : ℚ)
        (puntosEfectivosR usuario800 : ℚ)) ∧
    ((hacerTakeProfit usuario800 (.success "0xhash")).1.lReclamados
        = usuario800.lReclamados
          + ((min (puntosEfectivosL usuario800) (puntosEfectivosR usuario800) : ℤ) : ℚ) ∧
     (hacerTakeProfit usuario800 (.success "0xhash")).1.rReclamados
        = usuario800.rReclamados
          + ((min (puntosEfectivosL usuario800) (puntosEfectivosR usuario800) : ℤ) : ℚ) ∧
     lecturaRetirable (hacerTakeProfit usuario800 (.success "0xhash")).1 = 0) :=
  ⟨by decide, hacerTakeProfit_liquida usuario800 "0xhash" (by decide)⟩

/-! ## Claim C7 -/

/-- C7: a settlement whose ledger call fails with the ambiguous
"Transaction Hash: " signal is treated as success (`result = true`,
`error = false`) and the `claimedPoints` increment is applied exactly once:
both legs hold exactly the old value plus `matched`, with `matched`
positive. -/
theorem hacerTakeProfit_ambiguo_idempotente (u : Usuario)
    (hpos : 0 < retirableBinario (puntosEfectivosL u : ℚ) (puntosEfectivosR u : ℚ)) :
    (hacerTakeProfit u .ambiguous).1.lReclamados
        = u.lReclamados + ((min (puntosEfectivosL u) (puntosEfectivosR u) : ℤ) : ℚ) ∧
    (hacerTakeProfit u .ambiguous).1.rReclamados
        = u.rReclamados + ((min (puntosEfectivosL u) (puntosEfectivosR u) : ℤ) : ℚ) ∧
    0 < min (puntosEfectivosL u) (puntosEfectivosR u) ∧
    (hacerTakeProfit u .ambiguous).2.result = true ∧
    (hacerTakeProfit u .ambiguous).2.error = false := by
  have hpos' := hpos
  rw [retirableBinario_eq_min] at hpos'
  have hq := pos_of_dp0_pos hpos'
  have hmin : 0 < min (puntosEfectivosL u) (puntosEfectivosR u) := by
    by_contra hc
    push_neg at hc
    have : ((min (puntosEfectivosL u) (puntosEfectivosR u) : ℤ) : ℚ) ≤ 0 := by
      exact_mod_cast hc
    nlinarith
  rw [hacerTakeProfit_ambiguous_fst u hpos]
  exact ⟨rfl, rfl, hmin, rfl, rfl⟩

unseal Rat.add Rat.mul Rat.sub Rat.inv in
theorem hacerTakeProfit_ambiguo_idempotente_witness :
    (0 < retirableBinario (puntosEfectivosL usuario800 : ℚ)
        (puntosEfectivosR usuario800 : ℚ)) ∧
    ((hacerTakeProfit usuario800 .ambiguous).1.lReclamados
        = usuario800.lReclamados
          + ((min (puntosEfectivosL usuario800) (puntosEfectivosR usuario800) : ℤ) : ℚ) ∧
     (hacerTakeProfit usuario800 .ambiguous).1.rReclamados
        = usuario800.rReclamados
          + ((min (puntosEfectivosL usuario800) (puntosEfectivosR usuario800) : ℤ) : ℚ) ∧
     0 < min (puntosEfectivosL usuario800) (puntosEfectivosR usuario800) ∧
     (hacerTakeProfit usuario800 .ambiguous).2.result = true ∧
     (hacerTakeProfit usuario800 .ambiguous).2.error = false) :=
  ⟨by decide, hacerTakeProfit_ambiguo_idempotente usuario800 (by decide)⟩

/-! ## Claim C8 -/

/-- C8: any other ledger rejection leaves the account's document — in
particular both legs' claimed points — completely unchanged (the increment
is never committed) and returns a structured error carrying the rejection
message. -/
theorem hacerTakeProfit_fallo (u : Usuario) (msg : String) :
    (hacerTakeProfit u (.failure msg)).1 = u ∧
    (hacerTakeProfit u (.failure msg)).2 =
      { result := false, error := true, hash := none, message := some msg } :=
  ⟨rfl, rfl⟩

/-! ## Claim C9 -/

/-- C9 (corrected): claim settlement preserves the per-leg bound
`claimedPoints ≤ totalPoints + extraPoints` — for every settlement outcome,
on integer-valued fields, when the bound held beforehand.  (Aggregation and
placement resolution do **not** preserve it; see the counterexample.) -/
theorem hacerTakeProfit_preserva_cota (u : Usuario) (o : SettleOutcome)
    (hint : camposEnteros u) (hinv : invariantePuntos u) :
    invariantePuntos (hacerTakeProfit u o).1 := by
  obtain ⟨h1, h2, h3, h4, h5, h6⟩ := hint
  have hxL := puntosEfectivosL_int u h1 h3 h5
  have hxR := puntosEfectivosR_int u h2 h4 h6
  have hbound : ∀ v : Usuario,
      v = { u with
        lReclamados := u.lReclamados
          + ((min (puntosEfectivosL u) (puntosEfectivosR u) : ℤ) : ℚ),
        rReclamados := u.rReclamados
          + ((min (puntosEfectivosL u) (puntosEfectivosR u) : ℤ) : ℚ) } →
      invariantePuntos v := by
    intro v hv
    subst hv
    have hmL : ((min (puntosEfectivosL u) (puntosEfectivosR u) : ℤ) : ℚ)
        ≤ ((puntosEfectivosL u : ℤ) : ℚ) := by
      exact_mod_cast min_le_left (puntosEfectivosL u) (puntosEfectivosR u)
    have hmR : ((min (puntosEfectivosL u) (puntosEfectivosR u) : ℤ) : ℚ)
        ≤ ((puntosEfectivosR u : ℤ) : ℚ) := by
      exact_mod_cast min_le_right (puntosEfectivosL u) (puntosEfectivosR u)
    rw [hxL] at hmL
    rw [hxR] at hmR
    constructor
    · show u.lReclamados
        + ((min (puntosEfectivosL u) (puntosEfectivosR u) : ℤ) : ℚ)
        ≤ u.lPuntos + u.lExtra
      linarith
    · show u.rReclamados
        + ((min (puntosEfectivosL u) (puntosEfectivosR u) : ℤ) : ℚ)
        ≤ u.rPuntos + u.rExtra
      linarith
  cases o with
  | failure m => exact hinv
  | success hh =>
      by_cases hr : retirableBinario (puntosEfectivosL u : ℚ)
          (puntosEfectivosR u : ℚ) ≤ 0
      · have he : (hacerTakeProfit u (.success hh)).1 = u := by
          simp only [hacerTakeProfit]
          rw [if_pos hr]
        rw [he]; exact hinv
      · exact hbound _ (hacerTakeProfit_success_fst u hh (by omega))
  | ambiguous =>
      by_cases hr : retirableBinario (puntosEfectivosL u : ℚ)
          (puntosEfectivosR u : ℚ) ≤ 0
      · have he : (hacerTakeProfit u .ambiguous).1 = u := by
          simp only [hacerTakeProfit]
          rw [if_pos hr]
        rw [he]; exact hinv
      · exact hbound _ (hacerTakeProfit_ambiguous_fst u (by omega))

unseal Rat.add Rat.mul Rat.sub Rat.inv in
theorem hacerTakeProfit_preserva_cota_witness :
    camposEnteros usuario800 ∧ invariantePuntos usuario800 ∧
    invariantePuntos (hacerTakeProfit usuario800 (.success "0xhash")).1 :=
  ⟨by decide, by decide,
   hacerTakeProfit_preserva_cota usuario800 (.success "0xhash")
     (by decide) (by decide)⟩

unseal Rat.add Rat.mul Rat.sub Rat.inv in
/-- C9 counterexample: the bound `claimedPoints ≤ totalPoints +
extraPoints` holds for `usuarioHuerfano` (`lReclamados = 5 ≤ 7 = lPuntos`),
yet one aggregation pass (`binariV2`) over its empty left slot resets
`lPuntos` to `0` while keeping `lReclamados = 5`, violating the bound. -/
theorem binariV2_rompe_cota :
    invariantePuntos usuarioHuerfano ∧
    ((findOne (binariV2 ledgerTrivial "0xa" [usuarioHuerfano]) "0xa").map
      (fun u' => decide (invariantePuntos u'))) = some false := by
  constructor
  · decide
  · decide

/-! ## Claim C3 -/

unseal Rat.add Rat.mul Rat.sub Rat.inv in
/-- C3 (code bug): two accounts `0xp1` (`idBlock` 5) and `0xp2`
(`idBlock` 9) both record `0xf` as their right child.  The reconciliation
pass does pick the lower-`idBlock` account `0xp1` as winner and sets
`0xf.up := 0xp1` — but the cleanup loop then clears
`ubication[ganador].wallet`'s (the **winner's**) `right` pointer once per
loser instead of the losers', so `0xp1.right` ends up `WalletVacia` while
the loser `0xp2` keeps `right = 0xf`, contradicting both the claim and the
source's own comment ("debe ... eliminar el registro de los demas"). -/
theorem conectarUpline_desconecta_ganador :
    ((conectarUpline ledgerConflicto "0xf" storeConflicto).map (fun p =>
        ((findOne p.1 "0xp1").map Usuario.right,
         (findOne p.1 "0xp2").map Usuario.right,
         (findOne p.1 "0xf").map Usuario.up)))
      = some (some WalletVacia, some "0xf", some "0xp1") := by
  decide

/-! ## Claim C10 -/

/-- C10: calling `consultarUsuario` on the zero address returns the empty
record (`{}`, embedded `none`) before any store access: for every ledger,
flag combination and store state, the store is returned unchanged — both
with and without the `conectarUp` pass. -/
theorem consultarUsuario_direccion_cero (L : Ledger) (a b c : Bool)
    (s : Store) :
    consultarUsuario L a b c WalletVacia s = some (s, none) ∧
    consultarUsuarioNoUp L a b WalletVacia s = (s, none) := by
  constructor
  · simp only [consultarUsuario]
    rw [if_pos (by decide)]
  · simp only [consultarUsuarioNoUp]
    rw [if_pos (by decide)]

/-! ## Lemmas about the document store -/

theorem findOne_eq_wallet {s : Store} {w : Wallet} {u : Usuario}
    (h : findOne s w = some u) : u.wallet = w := by
  induction s with
  | nil => simp [findOne] at h
  | cons v rest ih =>
    simp only [findOne] at h
    split at h
    · injection h with h2
      subst h2
      assumption
    · exact ih h

theorem findOne_updateOne_self {s : Store} {w : Wallet} {f : Usuario → Usuario}
    (hf : ∀ u, findOne s w = some u → (f u).wallet = u.wallet) :
    findOne (updateOne s w f) w = (findOne s w).map f := by
  induction s with
  | nil => rfl
  | cons u rest ih =>
    by_cases h : u.wallet = w
    · have hfw : (f u).wallet = u.wallet :=
        hf u (by simp only [findOne]; rw [if_pos h])
      simp only [updateOne]
      rw [if_pos h]
      simp only [findOne]
      rw [if_pos (hfw.trans h), if_pos h]
      rfl
    · simp only [updateOne]
      rw [if_neg h]
      simp only [findOne]
      rw [if_neg h, if_neg h]
      exact ih (fun v hv => hf v (by simp only [findOne]; rw [if_neg h]; exact hv))

theorem findOne_updateOne_ne {s : Store} {w w' : Wallet} {f : Usuario → Usuario}
    (hf : ∀ u, findOne s w = some u → (f u).wallet = u.wallet)
    (hw : w' ≠ w) :
    findOne (updateOne s w f) w' = findOne s w' := by
  induction s with
  | nil => rfl
  | cons u rest ih =>
    by_cases h : u.wallet = w
    · have hfw : (f u).wallet = u.wallet :=
        hf u (by simp only [findOne]; rw [if_pos h])
      simp only [updateOne]
      rw [if_pos h]
      simp only [findOne]
      rw [if_neg (show ¬ (f u).wallet = w' by
            rw [hfw, h]; exact fun hh => hw hh.symm),
          if_neg (show ¬ u.wallet = w' by
            rw [h]; exact fun hh => hw hh.symm)]
    · simp only [updateOne]
      rw [if_neg h]
      simp only [findOne]
      by_cases h2 : u.wallet = w'
      · rw [if_pos h2, if_pos h2]
      · rw [if_neg h2, if_neg h2]
        exact ih (fun v hv =>
          hf v (by simp only [findOne]; rw [if_neg h]; exact hv))

theorem updateOne_updateOne {s : Store} {w : Wallet} {f g : Usuario → Usuario}
    (hf : ∀ u, findOne s w = some u → (f u).wallet = u.wallet) :
    updateOne (updateOne s w f) w g = updateOne s w (fun v => g (f v)) := by
  induction s with
  | nil => rfl
  | cons u rest ih =>
    by_cases h : u.wallet = w
    · have hfw : (f u).wallet = u.wallet :=
        hf u (by simp only [findOne]; rw [if_pos h])
      simp only [updateOne]
      rw [if_pos h]
      simp only [updateOne]
      rw [if_pos (hfw.trans h), if_pos h]
    · simp only [updateOne]
      rw [if_neg h]
      simp only [updateOne]
      rw [if_neg h, if_neg h]
      rw [ih (fun v hv => hf v (by simp only [findOne]; rw [if_neg h]; exact hv))]

theorem updateOne_eq_self {s : Store} {w : Wallet} {f : Usuario → Usuario}
    (h : ∀ u, findOne s w = some u → f u = u) :
    updateOne s w f = s := by
  induction s with
  | nil => rfl
  | cons u rest ih =>
    by_cases hw : u.wallet = w
    · simp only [updateOne]
      rw [if_pos hw, h u (by simp only [findOne]; rw [if_pos hw])]
    · simp only [updateOne]
      rw [if_neg hw]
      rw [ih (fun v hv => h v (by simp only [findOne]; rw [if_neg hw]; exact hv))]

theorem updateOne_congr {s : Store} {w : Wallet} {f g : Usuario → Usuario}
    (h : ∀ u, findOne s w = some u → f u = g u) :
    updateOne s w f = updateOne s w g := by
  induction s with
  | nil => rfl
  | cons u rest ih =>
    by_cases hw : u.wallet = w
    · simp only [updateOne]
      rw [if_pos hw, if_pos hw, h u (by simp only [findOne]; rw [if_pos hw])]
    · simp only [updateOne]
      rw [if_neg hw, if_neg hw]
      rw [ih (fun v hv => h v (by simp only [findOne]; rw [if_neg hw]; exact hv))]

theorem findOne_append_ne {s : Store} {v : Usuario} {w : Wallet}
    (hv : v.wallet ≠ w) :
    findOne (s ++ [v]) w = findOne s w := by
  induction s with
  | nil =>
      show findOne [v] w = none
      simp only [findOne]
      rw [if_neg hv]
  | cons u rest ih =>
    show findOne (u :: (rest ++ [v])) w = findOne (u :: rest) w
    simp only [findOne]
    by_cases h : u.wallet = w
    · rw [if_pos h, if_pos h]
    · rw [if_neg h, if_neg h]
      exact ih

theorem actualizarRecord_wallet (L : Ledger) (c : Wallet) (v : Usuario) :
    (actualizarRecord L c v).wallet = v.wallet := by
  simp only [actualizarRecord]
  split <;> rfl

theorem actualizarUsuario_frame {L : Ledger} {c : Wallet} {s : Store}
    {w : Wallet} (hc : minusculas c = c) (hcw : c ≠ w) :
    findOne (actualizarUsuario L c s) w = findOne s w := by
  simp only [actualizarUsuario]
  rw [hc]
  cases hfound : findOne s c with
  | none => rfl
  | some u =>
      exact findOne_updateOne_ne (fun v _ => actualizarRecord_wallet L c v)
        (fun hh => hcw hh.symm)

theorem crearUsuario_frame {L : Ledger} {c : Wallet} {s : Store} {w : Wallet}
    (hc : minusculas c = c) (hcw : c ≠ w) :
    findOne ((crearUsuario L c s).1) w = findOne s w := by
  simp only [crearUsuario]
  rw [hc]
  cases hfound : findOne s c with
  | none => exact findOne_append_ne hcw
  | some u =>
      exact findOne_updateOne_ne (fun v _ => rfl) (fun hh => hcw hh.symm)

theorem consultarNoUp_frame {L : Ledger} {a b : Bool} {c : Wallet} {s : Store}
    {w : Wallet} (hc : minusculas c = c) (hcw : c ≠ w) :
    findOne ((consultarUsuarioNoUp L a b c s).1) w = findOne s w := by
  simp only [consultarUsuarioNoUp]
  rw [hc]
  by_cases hv : c = WalletVacia
  · rw [if_pos hv]
  · rw [if_neg hv]
    have h1 : findOne (if b then actualizarUsuario L c s else s) w
        = findOne s w := by
      cases b with
      | false => rfl
      | true => exact actualizarUsuario_frame hc hcw
    cases hfound : findOne (if b then actualizarUsuario L c s else s) c with
    | none => exact (crearUsuario_frame hc hcw).trans h1
    | some u => exact h1

/-- When the child document exists and already mirrors the ledger
(`actualizarRecord` fixes it), the child refresh performed by `binariV2`
is inert: it returns the store unchanged and the child document itself. -/
theorem consultarNoUp_inerte {L : Ledger} {a : Bool} {c : Wallet} {s : Store}
    {ul : Usuario} (hc : minusculas c = c) (hcv : c ≠ WalletVacia)
    (hul : findOne s c = some ul) (hmir : actualizarRecord L c ul = ul) :
    consultarUsuarioNoUp L a true c s = (s, some ul) := by
  simp only [consultarUsuarioNoUp]
  rw [hc, if_neg hcv]
  have hact : actualizarUsuario L c s = s := by
    simp only [actualizarUsuario]
    rw [hc, hul]
    exact updateOne_eq_self (fun u hu => by
      rw [hul] at hu; injection hu with hu; subst hu; exact hmir)
  simp only [if_true, hact, hul]

/-! ## The collapsed per-record effect of `binariV2` -/

theorem legPuntos_idem (cur : ℚ) (c : Option Usuario) :
    legPuntos (legPuntos cur c) c = legPuntos cur c := by
  cases c with
  | none => rfl
  | some c =>
      simp only [legPuntos]
      split_ifs <;> rfl

theorem legPersonas_idem (cur : ℚ) (c : Option Usuario) :
    legPersonas (legPersonas cur c) c = legPersonas cur c := by
  cases c with
  | none => rfl
  | some c =>
      simp only [legPersonas]
      split_ifs <;> rfl

theorem binariV2Record_wallet (ul ur : Option Usuario) (v : Usuario) :
    (binariV2Record ul ur v).wallet = v.wallet := rfl

theorem binariV2Record_left (ul ur : Option Usuario) (v : Usuario) :
    (binariV2Record ul ur v).left = v.left := rfl

theorem binariV2Record_right (ul ur : Option Usuario) (v : Usuario) :
    (binariV2Record ul ur v).right = v.right := rfl

theorem binariV2Record_idem (ul ur : Option Usuario) (v : Usuario) :
    binariV2Record ul ur (binariV2Record ul ur v) = binariV2Record ul ur v := by
  simp only [binariV2Record, legPuntos_idem, legPersonas_idem]

theorem binariV2Patch_wallet (a b c d : Option ℚ) (v : Usuario) :
    (binariV2Patch a b c d v).wallet = v.wallet := rfl

/-- `activarPuntos` after a wallet-preserving `updateOne` of a present
document collapses into a single `updateOne`. -/
theorem activarPuntos_eq (s : Store) (w : Wallet) (u : Usuario)
    (f : Usuario → Usuario) (hu : findOne s w = some u)
    (hf : ∀ v, (f v).wallet = v.wallet) :
    activarPuntos (updateOne s w f) w =
      updateOne s w (fun v =>
        { f v with puntosActivos :=
            if (f u).lPuntos + (f u).lExtra - (f u).lReclamados <
               (f u).rPuntos + (f u).rExtra - (f u).rReclamados
            then (f u).lPuntos + (f u).lExtra - (f u).lReclamados
            else (f u).rPuntos + (f u).rExtra - (f u).rReclamados }) := by
  have hfind : findOne (updateOne s w f) w = some (f u) := by
    rw [findOne_updateOne_self (fun v _ => hf v), hu]
    rfl
  simp only [activarPuntos]
  rw [hfind]
  exact updateOne_updateOne (fun v _ => hf v)

theorem legOpt_getD_puntos (cur : ℚ) (c : Usuario) :
    (if (0 + c.invested) * factorPuntos / 100 + c.lPuntos + c.rPuntos > cur
     then some ((0 + c.invested) * factorPuntos / 100 + c.lPuntos + c.rPuntos)
     else none).getD cur = legPuntos cur (some c) := by
  simp only [legPuntos]
  split_ifs <;> rfl

theorem legOpt_getD_personas (cur : ℚ) (c : Usuario) :
    (if (0 : ℚ) + 1 + c.lPersonas + c.rPersonas > cur
     then some ((0 : ℚ) + 1 + c.lPersonas + c.rPersonas)
     else none).getD cur = legPersonas cur (some c) := by
  simp only [legPersonas]
  split_ifs <;> rfl

/-- Assembling the staged per-leg options and the recomputed
`puntosActivos` yields exactly `binariV2Record`. -/
theorem patch_eq_record (ulOpt urOpt : Option Usuario) (u : Usuario)
    (a b c d : Option ℚ)
    (ha : a.getD u.lPuntos = legPuntos u.lPuntos ulOpt)
    (hb : b.getD u.lPersonas = legPersonas u.lPersonas ulOpt)
    (hc : c.getD u.rPuntos = legPuntos u.rPuntos urOpt)
    (hd : d.getD u.rPersonas = legPersonas u.rPersonas urOpt) :
    { binariV2Patch a b c d u with puntosActivos :=
        if (binariV2Patch a b c d u).lPuntos + (binariV2Patch a b c d u).lExtra
              - (binariV2Patch a b c d u).lReclamados <
           (binariV2Patch a b c d u).rPuntos + (binariV2Patch a b c d u).rExtra
              - (binariV2Patch a b c d u).rReclamados
        then (binariV2Patch a b c d u).lPuntos + (binariV2Patch a b c d u).lExtra
              - (binariV2Patch a b c d u).lReclamados
        else (binariV2Patch a b c d u).rPuntos + (binariV2Patch a b c d u).rExtra
              - (binariV2Patch a b c d u).rReclamados } =
    binariV2Record ulOpt urOpt u := by
  simp only [binariV2Patch, binariV2Record]
  rw [ha, hb, hc, hd]

/-- The closed form of one `binariV2` pass: when the account's document is
present and each leg is resolved — the child slot is empty, or the child's
document is present, lower-case, distinct from the account and already
ledger-mirrored — the pass only rewrites the account's own document, by
`binariV2Record`. -/
theorem binariV2_forma_cerrada (L : Ledger) {w : Wallet} {s : Store}
    {u : Usuario} (ulOpt urOpt : Option Usuario)
    (hw : minusculas w = w) (hu : findOne s w = some u)
    (hL : (u.left = WalletVacia ∧ ulOpt = none) ∨
          (u.left ≠ WalletVacia ∧ minusculas u.left = u.left ∧ u.left ≠ w ∧
           ∃ ul, ulOpt = some ul ∧ findOne s u.left = some ul ∧
             actualizarRecord L u.left ul = ul))
    (hR : (u.right = WalletVacia ∧ urOpt = none) ∨
          (u.right ≠ WalletVacia ∧ minusculas u.right = u.right ∧ u.right ≠ w ∧
           ∃ ur, urOpt = some ur ∧ findOne s u.right = some ur ∧
             actualizarRecord L u.right ur = ur)) :
    binariV2 L w s = updateOne s w (binariV2Record ulOpt urOpt) := by
  simp only [binariV2]
  rw [hw, hu]
  dsimp only
  rcases hL with ⟨hlv, rfl⟩ | ⟨hlnv, hlc, hlw, ul, rfl, hul, hmirl⟩ <;>
    rcases hR with ⟨hrv, rfl⟩ | ⟨hrnv, hrc, hrw, ur, rfl, hur, hmirr⟩
  · rw [if_neg (show ¬u.left ≠ WalletVacia by simp [hlv]), if_neg (show ¬u.right ≠ WalletVacia by simp [hrv])]
    try dsimp only
    rw [activarPuntos_eq s w u (binariV2Patch (some 0) (some 0) (some 0) (some 0))
      hu (fun v => rfl)]
    refine updateOne_congr (fun v hv => ?_)
    rw [hu] at hv
    injection hv with hv
    subst hv
    exact patch_eq_record none none u (some 0) (some 0) (some 0) (some 0)
      rfl rfl rfl rfl
  · rw [if_neg (show ¬u.left ≠ WalletVacia by simp [hlv]), if_pos hrnv]
    try dsimp only
    rw [consultarNoUp_inerte hrc hrnv hur hmirr]
    try dsimp only
    rw [hur]
    try dsimp only
    rw [activarPuntos_eq s w u (binariV2Patch (some 0) (some 0) _ _)
      hu (fun v => rfl)]
    refine updateOne_congr (fun v hv => ?_)
    rw [hu] at hv
    injection hv with hv
    subst hv
    exact patch_eq_record none (some ur) u (some 0) (some 0) _ _
      rfl rfl (legOpt_getD_puntos u.rPuntos ur) (legOpt_getD_personas u.rPersonas ur)
  · rw [if_pos hlnv, if_neg (show ¬u.right ≠ WalletVacia by simp [hrv])]
    try dsimp only
    rw [consultarNoUp_inerte hlc hlnv hul hmirl]
    try dsimp only
    rw [hul]
    try dsimp only
    rw [activarPuntos_eq s w u (binariV2Patch _ _ (some 0) (some 0))
      hu (fun v => rfl)]
    refine updateOne_congr (fun v hv => ?_)
    rw [hu] at hv
    injection hv with hv
    subst hv
    exact patch_eq_record (some ul) none u _ _ (some 0) (some 0)
      (legOpt_getD_puntos u.lPuntos ul) (legOpt_getD_personas u.lPersonas ul)
      rfl rfl
  · rw [if_pos hlnv, if_pos hrnv]
    try dsimp only
    rw [consultarNoUp_inerte hlc hlnv hul hmirl]
    try dsimp only
    rw [hul]
    try dsimp only
    rw [consultarNoUp_inerte hrc hrnv hur hmirr]
    try dsimp only
    rw [hur]
    try dsimp only
    rw [activarPuntos_eq s w u (binariV2Patch _ _ _ _) hu (fun v => rfl)]
    refine updateOne_congr (fun v hv => ?_)
    rw [hu] at hv
    injection hv with hv
    subst hv
    exact patch_eq_record (some ul) (some ur) u _ _ _ _
      (legOpt_getD_puntos u.lPuntos ul) (legOpt_getD_personas u.lPersonas ul)
      (legOpt_getD_puntos u.rPuntos ur) (legOpt_getD_personas u.rPersonas ur)

/-! ## Claim C5 -/

/-- C5: with both children present (lower-case, distinct from the account,
ledger-mirrored), one `binariV2` pass sets each leg to
`max(current, child.invested * factorPuntos/100 + child.lPuntos +
child.rPuntos)` and `max(current, 1 + child.lPersonas + child.rPersonas)`
— the stored value is only ever raised by the merge, never lowered. -/
theorem binariV2_fusion_monotona {L : Ledger} {w : Wallet} {s : Store}
    {u ul ur : Usuario}
    (hw : minusculas w = w) (hu : findOne s w = some u)
    (hlnv : u.left ≠ WalletVacia) (hlc : minusculas u.left = u.left)
    (hlw : u.left ≠ w) (hul : findOne s u.left = some ul)
    (hmirl : actualizarRecord L u.left ul = ul)
    (hrnv : u.right ≠ WalletVacia) (hrc : minusculas u.right = u.right)
    (hrw : u.right ≠ w) (hur : findOne s u.right = some ur)
    (hmirr : actualizarRecord L u.right ur = ur) :
    ∃ u', findOne (binariV2 L w s) w = some u' ∧
      u'.lPuntos = max u.lPuntos
        (ul.invested * factorPuntos / 100 + ul.lPuntos + ul.rPuntos) ∧
      u'.lPersonas = max u.lPersonas (1 + ul.lPersonas + ul.rPersonas) ∧
      u'.rPuntos = max u.rPuntos
        (ur.invested * factorPuntos / 100 + ur.lPuntos + ur.rPuntos) ∧
      u'.rPersonas = max u.rPersonas (1 + ur.lPersonas + ur.rPersonas) := by
  rw [binariV2_forma_cerrada L (some ul) (some ur) hw hu
      (Or.inr ⟨hlnv, hlc, hlw, ul, rfl, hul, hmirl⟩)
      (Or.inr ⟨hrnv, hrc, hrw, ur, rfl, hur, hmirr⟩)]
  refine ⟨binariV2Record (some ul) (some ur) u, ?_, ?_, ?_, ?_, ?_⟩
  · rw [findOne_updateOne_self (fun v _ => binariV2Record_wallet _ _ v), hu]
    rfl
  · show legPuntos u.lPuntos (some ul) = _
    simp only [legPuntos, zero_add]
    rcases lt_or_le u.lPuntos
        (ul.invested * factorPuntos / 100 + ul.lPuntos + ul.rPuntos) with h | h
    · rw [if_pos h, max_eq_right h.le]
    · rw [if_neg (not_lt.2 h), max_eq_left h]
  · show legPersonas u.lPersonas (some ul) = _
    simp only [legPersonas, zero_add]
    rcases lt_or_le u.lPersonas (1 + ul.lPersonas + ul.rPersonas) with h | h
    · rw [if_pos h, max_eq_right h.le]
    · rw [if_neg (not_lt.2 h), max_eq_left h]
  · show legPuntos u.rPuntos (some ur) = _
    simp only [legPuntos, zero_add]
    rcases lt_or_le u.rPuntos
        (ur.invested * factorPuntos / 100 + ur.lPuntos + ur.rPuntos) with h | h
    · rw [if_pos h, max_eq_right h.le]
    · rw [if_neg (not_lt.2 h), max_eq_left h]
  · show legPersonas u.rPersonas (some ur) = _
    simp only [legPersonas, zero_add]
    rcases lt_or_le u.rPersonas (1 + ur.lPersonas + ur.rPersonas) with h | h
    · rw [if_pos h, max_eq_right h.le]
    · rw [if_neg (not_lt.2 h), max_eq_left h]

unseal Rat.add Rat.mul Rat.sub Rat.inv in
theorem binariV2_fusion_monotona_witness :
    (minusculas "0xa" = "0xa" ∧
     findOne storeDosNiveles "0xa" = some usuarioPadre ∧
     usuarioPadre.left ≠ WalletVacia ∧
     minusculas usuarioPadre.left = usuarioPadre.left ∧
     usuarioPadre.left ≠ "0xa" ∧
     findOne storeDosNiveles usuarioPadre.left = some usuarioHijoIzq ∧
     actualizarRecord ledgerTrivial usuarioPadre.left usuarioHijoIzq
       = usuarioHijoIzq ∧
     usuarioPadre.right ≠ WalletVacia ∧
     minusculas usuarioPadre.right = usuarioPadre.right ∧
     usuarioPadre.right ≠ "0xa" ∧
     findOne storeDosNiveles usuarioPadre.right = some usuarioHijoDer ∧
     actualizarRecord ledgerTrivial usuarioPadre.right usuarioHijoDer
       = usuarioHijoDer) ∧
    (∃ u', findOne (binariV2 ledgerTrivial "0xa" storeDosNiveles) "0xa"
        = some u' ∧
      u'.lPuntos = max usuarioPadre.lPuntos
        (usuarioHijoIzq.invested * factorPuntos / 100
          + usuarioHijoIzq.lPuntos + usuarioHijoIzq.rPuntos) ∧
      u'.lPersonas = max usuarioPadre.lPersonas
        (1 + usuarioHijoIzq.lPersonas + usuarioHijoIzq.rPersonas) ∧
      u'.rPuntos = max usuarioPadre.rPuntos
        (usuarioHijoDer.invested * factorPuntos / 100
          + usuarioHijoDer.lPuntos + usuarioHijoDer.rPuntos) ∧
      u'.rPersonas = max usuarioPadre.rPersonas
        (1 + usuarioHijoDer.lPersonas + usuarioHijoDer.rPersonas)) :=
  ⟨⟨by decide, by decide, by decide, by decide, by decide, by decide,
    by decide, by decide, by decide, by decide, by decide, by decide⟩,
   binariV2_fusion_monotona (by decide) (by decide) (by decide) (by decide)
     (by decide) (by decide) (by decide) (by decide) (by decide) (by decide)
     (by decide) (by decide)⟩

/-! ## Claim C6 -/

/-- C6: one `binariV2` pass only rewrites the account's own document, so
running it twice on an unchanged tree and ledger state produces identical
point fields — `binariV2` is idempotent.  Each leg is either an empty slot
or a present, lower-case, ledger-mirrored child distinct from the
account. -/
theorem binariV2_idempotente {L : Ledger} {w : Wallet} {s : Store}
    {u : Usuario}
    (hw : minusculas w = w) (hu : findOne s w = some u)
    (hL : u.left = WalletVacia ∨
          (u.left ≠ WalletVacia ∧ minusculas u.left = u.left ∧ u.left ≠ w ∧
           ∃ ul, findOne s u.left = some ul ∧
             actualizarRecord L u.left ul = ul))
    (hR : u.right = WalletVacia ∨
          (u.right ≠ WalletVacia ∧ minusculas u.right = u.right ∧
           u.right ≠ w ∧
           ∃ ur, findOne s u.right = some ur ∧
             actualizarRecord L u.right ur = ur)) :
    binariV2 L w (binariV2 L w s) = binariV2 L w s := by
  have hRw : ∀ ulOpt urOpt v,
      (binariV2Record ulOpt urOpt v).wallet = v.wallet :=
    fun a b v => binariV2Record_wallet a b v
  rcases hL with hlv | ⟨hlnv, hlc, hlw, ul, hul, hmirl⟩ <;>
    rcases hR with hrv | ⟨hrnv, hrc, hrw, ur, hur, hmirr⟩
  · have h1 := binariV2_forma_cerrada L none none hw hu
      (Or.inl ⟨hlv, rfl⟩) (Or.inl ⟨hrv, rfl⟩)
    have hu2 : findOne (updateOne s w (binariV2Record none none)) w
        = some (binariV2Record none none u) := by
      rw [findOne_updateOne_self (fun v _ => hRw none none v), hu]
      rfl
    have h2 := binariV2_forma_cerrada L none none hw hu2
      (Or.inl ⟨hlv, rfl⟩) (Or.inl ⟨hrv, rfl⟩)
    rw [h1, h2, updateOne_updateOne (fun v _ => hRw none none v)]
    refine updateOne_congr (fun v hv => ?_)
    rw [hu] at hv
    injection hv with hv
    subst hv
    exact binariV2Record_idem none none u
  · have h1 := binariV2_forma_cerrada L none (some ur) hw hu
      (Or.inl ⟨hlv, rfl⟩) (Or.inr ⟨hrnv, hrc, hrw, ur, rfl, hur, hmirr⟩)
    have hu2 : findOne (updateOne s w (binariV2Record none (some ur))) w
        = some (binariV2Record none (some ur) u) := by
      rw [findOne_updateOne_self (fun v _ => hRw none (some ur) v), hu]
      rfl
    have hur2 : findOne (updateOne s w (binariV2Record none (some ur)))
        u.right = some ur := by
      rw [findOne_updateOne_ne (fun v _ => hRw none (some ur) v) hrw, hur]
    have h2 := binariV2_forma_cerrada L none (some ur) hw hu2
      (Or.inl ⟨hlv, rfl⟩) (Or.inr ⟨hrnv, hrc, hrw, ur, rfl, hur2, hmirr⟩)
    rw [h1, h2, updateOne_updateOne (fun v _ => hRw none (some ur) v)]
    refine updateOne_congr (fun v hv => ?_)
    rw [hu] at hv
    injection hv with hv
    subst hv
    exact binariV2Record_idem none (some ur) u
  · have h1 := binariV2_forma_cerrada L (some ul) none hw hu
      (Or.inr ⟨hlnv, hlc, hlw, ul, rfl, hul, hmirl⟩) (Or.inl ⟨hrv, rfl⟩)
    have hu2 : findOne (updateOne s w (binariV2Record (some ul) none)) w
        = some (binariV2Record (some ul) none u) := by
      rw [findOne_updateOne_self (fun v _ => hRw (some ul) none v), hu]
      rfl
    have hul2 : findOne (updateOne s w (binariV2Record (some ul) none))
        u.left = some ul := by
      rw [findOne_updateOne_ne (fun v _ => hRw (some ul) none v) hlw, hul]
    have h2 := binariV2_forma_cerrada L (some ul) none hw hu2
      (Or.inr ⟨hlnv, hlc, hlw, ul, rfl, hul2, hmirl⟩) (Or.inl ⟨hrv, rfl⟩)
    rw [h1, h2, updateOne_updateOne (fun v _ => hRw (some ul) none v)]
    refine updateOne_congr (fun v hv => ?_)
    rw [hu] at hv
    injection hv with hv
    subst hv
    exact binariV2Record_idem (some ul) none u
  · have h1 := binariV2_forma_cerrada L (some ul) (some ur) hw hu
      (Or.inr ⟨hlnv, hlc, hlw, ul, rfl, hul, hmirl⟩)
      (Or.inr ⟨hrnv, hrc, hrw, ur, rfl, hur, hmirr⟩)
    have hu2 : findOne (updateOne s w (binariV2Record (some ul) (some ur))) w
        = some (binariV2Record (some ul) (some ur) u) := by
      rw [findOne_updateOne_self (fun v _ => hRw (some ul) (some ur) v), hu]
      rfl
    have hul2 : findOne (updateOne s w (binariV2Record (some ul) (some ur)))
        u.left = some ul := by
      rw [findOne_updateOne_ne (fun v _ => hRw (some ul) (some ur) v) hlw, hul]
    have hur2 : findOne (updateOne s w (binariV2Record (some ul) (some ur)))
        u.right = some ur := by
      rw [findOne_updateOne_ne (fun v _ => hRw (some ul) (some ur) v) hrw, hur]
    have h2 := binariV2_forma_cerrada L (some ul) (some ur) hw hu2
      (Or.inr ⟨hlnv, hlc, hlw, ul, rfl, hul2, hmirl⟩)
      (Or.inr ⟨hrnv, hrc, hrw, ur, rfl, hur2, hmirr⟩)
    rw [h1, h2, updateOne_updateOne (fun v _ => hRw (some ul) (some ur) v)]
    refine updateOne_congr (fun v hv => ?_)
    rw [hu] at hv
    injection hv with hv
    subst hv
    exact binariV2Record_idem (some ul) (some ur) u

unseal Rat.add Rat.mul Rat.sub Rat.inv in
theorem binariV2_idempotente_witness :
    (minusculas "0xa" = "0xa" ∧
     findOne storeDosNiveles "0xa" = some usuarioPadre ∧
     usuarioPadre.left ≠ WalletVacia ∧
     findOne storeDosNiveles usuarioPadre.left = some usuarioHijoIzq ∧
     usuarioPadre.right ≠ WalletVacia ∧
     findOne storeDosNiveles usuarioPadre.right = some usuarioHijoDer) ∧
    binariV2 ledgerTrivial "0xa" (binariV2 ledgerTrivial "0xa" storeDosNiveles)
      = binariV2 ledgerTrivial "0xa" storeDosNiveles :=
  ⟨⟨by decide, by decide, by decide, by decide, by decide, by decide⟩,
   @binariV2_idempotente ledgerTrivial "0xa" storeDosNiveles usuarioPadre
     (by decide) (by decide)
     (Or.inr ⟨by decide, by decide, by decide, usuarioHijoIzq,
       by decide, by decide⟩)
     (Or.inr ⟨by decide, by decide, by decide, usuarioHijoDer,
       by decide, by decide⟩)⟩

/-! ## Claim C4 -/

/-- A wallet-preserving `updateOne` of a present document is observable
through `findOne`. -/
theorem findOne_updateOne_eq {s : Store} {w : Wallet} {u : Usuario}
    (f : Usuario → Usuario) (hu : findOne s w = some u)
    (hf : ∀ v, (f v).wallet = v.wallet) :
    findOne (updateOne s w f) w = some (f u) := by
  rw [findOne_updateOne_self (fun v _ => hf v), hu]
  rfl

/-- Generic description of one `binariV2` pass on a present document with
well-formed (lower-case, non-self) child pointers and an arbitrary ledger:
the pass stages per-leg options and applies them to the account's document
only, and the staged options are `some 0` whenever the corresponding child
slot is empty. -/
theorem binariV2_general (L : Ledger) {w : Wallet} {s : Store} {u : Usuario}
    (hw : minusculas w = w) (hu : findOne s w = some u)
    (hlc : minusculas u.left = u.left) (hlw : u.left ≠ w)
    (hrc : minusculas u.right = u.right) (hrw : u.right ≠ w) :
    ∃ (s2 : Store) (a b c d : Option ℚ),
      binariV2 L w s
        = activarPuntos (updateOne s2 w (binariV2Patch a b c d)) w ∧
      findOne s2 w = some u ∧
      (u.left = WalletVacia → a = some 0 ∧ b = some 0) ∧
      (u.right = WalletVacia → c = some 0 ∧ d = some 0) := by
  have F1 : findOne ((consultarUsuarioNoUp L false true u.left s).1) w
      = some u := (consultarNoUp_frame hlc hlw).trans hu
  simp only [binariV2]
  rw [hw, hu]
  dsimp only
  by_cases hl : u.left = WalletVacia
  · rw [if_neg (show ¬u.left ≠ WalletVacia by simp [hl])]
    try dsimp only
    by_cases hr : u.right = WalletVacia
    · rw [if_neg (show ¬u.right ≠ WalletVacia by simp [hr])]
      exact ⟨s, some 0, some 0, some 0, some 0, rfl, hu,
        fun _ => ⟨rfl, rfl⟩, fun _ => ⟨rfl, rfl⟩⟩
    · rw [if_pos hr]
      try dsimp only
      rcases hfr : findOne ((consultarUsuarioNoUp L false true u.right s).1)
          u.right with _ | ur
      · try dsimp only
        refine ⟨_, _, _, _, _, rfl,
          (consultarNoUp_frame hrc hrw).trans hu,
          fun _ => ⟨rfl, rfl⟩, fun hrr => absurd hrr hr⟩
      · try dsimp only
        refine ⟨_, _, _, _, _, rfl,
          (consultarNoUp_frame hrc hrw).trans hu,
          fun _ => ⟨rfl, rfl⟩, fun hrr => absurd hrr hr⟩
  · rw [if_pos hl]
    try dsimp only
    rcases hfl : findOne ((consultarUsuarioNoUp L false true u.left s).1)
        u.left with _ | ul <;> try dsimp only
    · by_cases hr : u.right = WalletVacia
      · rw [if_neg (show ¬u.right ≠ WalletVacia by simp [hr])]
        exact ⟨_, none, none, some 0, some 0, rfl, F1,
          fun hll => absurd hll hl, fun _ => ⟨rfl, rfl⟩⟩
      · rw [if_pos hr]
        try dsimp only
        rcases hfr : findOne ((consultarUsuarioNoUp L false true u.right
            ((consultarUsuarioNoUp L false true u.left s).1)).1)
            u.right with _ | ur <;> try dsimp only
        · exact ⟨_, none, none, none, none, rfl,
            (consultarNoUp_frame hrc hrw).trans F1,
            fun hll => absurd hll hl, fun hrr => absurd hrr hr⟩
        · refine ⟨_, none, none, _, _, rfl,
            (consultarNoUp_frame hrc hrw).trans F1,
            fun hll => absurd hll hl, fun hrr => absurd hrr hr⟩
    · by_cases hr : u.right = WalletVacia
      · rw [if_neg (show ¬u.right ≠ WalletVacia by simp [hr])]
        refine ⟨_, _, _, some 0, some 0, rfl, F1,
          fun hll => absurd hll hl, fun _ => ⟨rfl, rfl⟩⟩
      · rw [if_pos hr]
        try dsimp only
        rcases hfr : findOne ((consultarUsuarioNoUp L false true u.right
            ((consultarUsuarioNoUp L false true u.left s).1)).1)
            u.right with _ | ur <;> try dsimp only
        · refine ⟨_, _, _, none, none, rfl,
            (consultarNoUp_frame hrc hrw).trans F1,
            fun hll => absurd hll hl, fun hrr => absurd hrr hr⟩
        · refine ⟨_, _, _, _, _, rfl,
            (consultarNoUp_frame hrc hrw).trans F1,
            fun hll => absurd hll hl, fun hrr => absurd hrr hr⟩

/-- C4 (corrected, amended): running `binariV2` on an account whose left
(respectively right) child slot is empty resets that leg's `lPuntos` and
`lPersonas` (respectively `rPuntos`/`rPersonas`) to `0` — the previous
watermark is **not** preserved for an empty leg. -/
theorem binariV2_rama_vacia (L : Ledger) {w : Wallet} {s : Store}
    {u : Usuario}
    (hw : minusculas w = w) (hu : findOne s w = some u)
    (hlc : minusculas u.left = u.left) (hlw : u.left ≠ w)
    (hrc : minusculas u.right = u.right) (hrw : u.right ≠ w) :
    (u.left = WalletVacia →
      ∃ u', findOne (binariV2 L w s) w = some u' ∧
        u'.lPuntos = 0 ∧ u'.lPersonas = 0) ∧
    (u.right = WalletVacia →
      ∃ u', findOne (binariV2 L w s) w = some u' ∧
        u'.rPuntos = 0 ∧ u'.rPersonas = 0) := by
  obtain ⟨s2, a, b, c, d, heq, hu2, hLz, hRz⟩ :=
    binariV2_general L hw hu hlc hlw hrc hrw
  rw [heq, activarPuntos_eq s2 w u (binariV2Patch a b c d) hu2 (fun v => rfl)]
  constructor
  · intro hl
    obtain ⟨ha, hb⟩ := hLz hl
    refine ⟨_, findOne_updateOne_eq _ hu2 (fun v => rfl), ?_, ?_⟩
    · show (binariV2Patch a b c d u).lPuntos = 0
      simp only [binariV2Patch]
      rw [ha]
      rfl
    · show (binariV2Patch a b c d u).lPersonas = 0
      simp only [binariV2Patch]
      rw [hb]
      rfl
  · intro hr
    obtain ⟨hc, hd⟩ := hRz hr
    refine ⟨_, findOne_updateOne_eq _ hu2 (fun v => rfl), ?_, ?_⟩
    · show (binariV2Patch a b c d u).rPuntos = 0
      simp only [binariV2Patch]
      rw [hc]
      rfl
    · show (binariV2Patch a b c d u).rPersonas = 0
      simp only [binariV2Patch]
      rw [hd]
      rfl

unseal Rat.add Rat.mul Rat.sub Rat.inv in
theorem binariV2_rama_vacia_witness :
    (minusculas "0xa" = "0xa" ∧
     findOne [usuarioHuerfano] "0xa" = some usuarioHuerfano ∧
     usuarioHuerfano.left = WalletVacia ∧ usuarioHuerfano.lPuntos = 7) ∧
    ((usuarioHuerfano.left = WalletVacia →
      ∃ u', findOne (binariV2 ledgerTrivial "0xa" [usuarioHuerfano]) "0xa"
          = some u' ∧ u'.lPuntos = 0 ∧ u'.lPersonas = 0) ∧
     (usuarioHuerfano.right = WalletVacia →
      ∃ u', findOne (binariV2 ledgerTrivial "0xa" [usuarioHuerfano]) "0xa"
          = some u' ∧ u'.rPuntos = 0 ∧ u'.rPersonas = 0)) :=
  ⟨⟨by decide, by decide, by decide, by decide⟩,
   @binariV2_rama_vacia ledgerTrivial "0xa" [usuarioHuerfano] usuarioHuerfano
     (by decide) (by decide) (by decide) (by decide) (by decide) (by decide)⟩

unseal Rat.add Rat.mul Rat.sub Rat.inv in
/-- C4 counterexample: `usuarioHuerfano` has an empty left slot and a left
watermark of `7` points, yet after one `binariV2` pass its `lPuntos` is
`0` — the leg does **not** keep its last known point total. -/
theorem binariV2_pierde_marca :
    usuarioHuerfano.left = WalletVacia ∧ usuarioHuerfano.lPuntos = 7 ∧
    ((findOne (binariV2 ledgerTrivial "0xa" [usuarioHuerfano]) "0xa").map
      Usuario.lPuntos) = some 0 ∧ (7 : ℚ) ≠ 0 := by
  refine ⟨rfl, by decide, by decide, by decide⟩

end AimasPro
